import Mathlib

/-!
Verification of `iqtools/tools.py` (iq_suite): a shallow embedding of the
signal-processing and file-parsing helpers, with proofs of the specified
properties.  Numeric code is modelled in exact arithmetic: complex samples
as `ℂ`, file field values as `ℚ`.
-/

namespace IqTools

open scoped BigOperators

/-- Model of `np.fft.fft` (one row, numpy forward convention, no normalisation):
`A_k = ∑_m a_m · exp(-2πi·m·k/n)`. -/
noncomputable def np_fft (n : ℕ) (x : Fin n → ℂ) : Fin n → ℂ :=
  fun k => ∑ m : Fin n, x m * Complex.exp (-(2 * Real.pi * Complex.I * m * k) / n)

/-- Model of `np.fft.ifft` (one row, numpy inverse convention, `1/n` normalisation):
`a_m = (1/n) ∑_k A_k · exp(2πi·m·k/n)`. -/
noncomputable def np_ifft (n : ℕ) (X : Fin n → ℂ) : Fin n → ℂ :=
  fun m => (∑ k : Fin n, X k * Complex.exp (2 * Real.pi * Complex.I * m * k / n)) / n

lemma two_pi_I_ne_zero : (2 * Real.pi * Complex.I : ℂ) ≠ 0 := by
  simp [Real.pi_ne_zero, Complex.I_ne_zero, Complex.ext_iff, Real.pi_pos.ne']

/-- Orthogonality of the discrete Fourier kernel:
`∑_k exp(2πi(a-b)k/n) = n·δ_{ab}`. -/
lemma sum_exp_orth (n : ℕ) (a b : Fin n) :
    ∑ k : Fin n, Complex.exp (2 * Real.pi * Complex.I * ((a : ℂ) - (b : ℂ)) * k / n)
      = if a = b then (n : ℂ) else 0 := by
  rcases eq_or_ne a b with h | h
  · subst h
    simp [Complex.exp_zero]
  · rw [if_neg h]
    have hn : 0 < n := a.pos
    have hnC : (n : ℂ) ≠ 0 := Nat.cast_ne_zero.mpr hn.ne'
    set z : ℂ := Complex.exp (2 * Real.pi * Complex.I * ((a : ℂ) - (b : ℂ)) / n) with hz
    have hterm : ∀ k : Fin n,
        Complex.exp (2 * Real.pi * Complex.I * ((a : ℂ) - (b : ℂ)) * k / n) = z ^ (k : ℕ) := by
      intro k
      rw [hz, ← Complex.exp_nat_mul]
      congr 1
      ring
    have hzn : z ^ n = 1 := by
      rw [hz, ← Complex.exp_nat_mul]
      have harr : (n : ℂ) * (2 * Real.pi * Complex.I * ((a : ℂ) - (b : ℂ)) / n)
          = (((a : ℤ) - (b : ℤ) : ℤ) : ℂ) * (2 * Real.pi * Complex.I) := by
        push_cast
        field_simp
        ring
      rw [harr, Complex.exp_int_mul_two_pi_mul_I]
    have hz1 : z ≠ 1 := by
      intro h1
      rw [hz, Complex.exp_eq_one_iff] at h1
      obtain ⟨m, hm⟩ := h1
      have hmain : ((a : ℂ) - (b : ℂ)) = (m : ℂ) * n := by
        have h2 := hm
        field_simp at h2
        -- h2 : 2 * π * I * (a - b) = m * (2 * π * I) * n  (up to arrangement)
        have h3 : (2 * Real.pi * Complex.I) * ((a : ℂ) - (b : ℂ))
            = (2 * Real.pi * Complex.I) * ((m : ℂ) * n) := by
          rw [mul_comm ((2 : ℂ) * Real.pi * Complex.I) ((a : ℂ) - (b : ℂ))]
          rw [mul_comm ((2 : ℂ) * Real.pi * Complex.I) ((m : ℂ) * (n : ℂ))]
          linear_combination h2
        exact mul_left_cancel₀ two_pi_I_ne_zero h3
      have hint : ((a : ℕ) : ℤ) - ((b : ℕ) : ℤ) = m * n := by
        exact_mod_cast hmain
      have hne : ((a : ℕ) : ℤ) - ((b : ℕ) : ℤ) ≠ 0 := by
        have := Fin.val_ne_of_ne h
        omega
      have hub : ((a : ℕ) : ℤ) - ((b : ℕ) : ℤ) < n := by
        have := a.isLt
        omega
      have hlb : -(n : ℤ) < ((a : ℕ) : ℤ) - ((b : ℕ) : ℤ) := by
        have := b.isLt
        omega
      rcases lt_trichotomy m 0 with hm0 | hm0 | hm0
      · have : m * (n : ℤ) ≤ (-1) * n := by
          apply mul_le_mul_of_nonneg_right _ (by exact_mod_cast hn.le)
          omega
        omega
      · subst hm0
        simp at hint
        omega
      · have : (1 : ℤ) * n ≤ m * n := by
          apply mul_le_mul_of_nonneg_right _ (by exact_mod_cast hn.le)
          omega
        omega
    have hsum : ∑ k : Fin n,
        Complex.exp (2 * Real.pi * Complex.I * ((a : ℂ) - (b : ℂ)) * k / n)
          = ∑ k ∈ Finset.range n, z ^ k := by
      rw [← Fin.sum_univ_eq_sum_range (fun k => z ^ k) n]
      exact Finset.sum_congr rfl fun k _ => hterm k
    rw [hsum, geom_sum_eq hz1, hzn]
    simp

/-- Inverse DFT of the forward DFT recovers the input exactly. -/
lemma np_ifft_np_fft (n : ℕ) (x : Fin n → ℂ) : np_ifft n (np_fft n x) = x := by
  funext j
  have hn : 0 < n := j.pos
  have hnC : (n : ℂ) ≠ 0 := Nat.cast_ne_zero.mpr hn.ne'
  simp only [np_ifft, np_fft]
  rw [div_eq_iff hnC]
  calc ∑ k : Fin n, (∑ m : Fin n, x m * Complex.exp (-(2 * Real.pi * Complex.I * m * k) / n))
          * Complex.exp (2 * Real.pi * Complex.I * j * k / n)
      = ∑ k : Fin n, ∑ m : Fin n,
          x m * Complex.exp (2 * Real.pi * Complex.I * ((j : ℂ) - (m : ℂ)) * k / n) := by
        refine Finset.sum_congr rfl fun k _ => ?_
        rw [Finset.sum_mul]
        refine Finset.sum_congr rfl fun m _ => ?_
        rw [mul_assoc, ← Complex.exp_add]
        congr 2
        field_simp
        ring
    _ = ∑ m : Fin n, x m * ∑ k : Fin n,
          Complex.exp (2 * Real.pi * Complex.I * ((j : ℂ) - (m : ℂ)) * k / n) := by
        rw [Finset.sum_comm]
        exact Finset.sum_congr rfl fun m _ => (Finset.mul_sum _ _ _).symm
    _ = x j * n := by
        have : ∀ m : Fin n, x m * (if j = m then (n : ℂ) else 0)
            = if j = m then x m * n else 0 := fun m => by
          split <;> simp
        simp only [sum_exp_orth, this]
        simp

/-- Forward DFT of the inverse DFT recovers the input exactly. -/
lemma np_fft_np_ifft (n : ℕ) (X : Fin n → ℂ) : np_fft n (np_ifft n X) = X := by
  funext k
  have hn : 0 < n := k.pos
  have hnC : (n : ℂ) ≠ 0 := Nat.cast_ne_zero.mpr hn.ne'
  simp only [np_fft, np_ifft]
  calc ∑ m : Fin n, (∑ j : Fin n, X j * Complex.exp (2 * Real.pi * Complex.I * m * j / n)) / n
          * Complex.exp (-(2 * Real.pi * Complex.I * m * k) / n)
      = (∑ m : Fin n, ∑ j : Fin n,
          X j * Complex.exp (2 * Real.pi * Complex.I * ((j : ℂ) - (k : ℂ)) * m / n)) / n := by
        rw [Finset.sum_div]
        refine Finset.sum_congr rfl fun m _ => ?_
        rw [div_mul_eq_mul_div, Finset.sum_mul]
        congr 1
        refine Finset.sum_congr rfl fun j _ => ?_
        rw [mul_assoc, ← Complex.exp_add]
        congr 2
        field_simp
        ring
    _ = (∑ j : Fin n, X j * ∑ m : Fin n,
          Complex.exp (2 * Real.pi * Complex.I * ((j : ℂ) - (k : ℂ)) * m / n)) / n := by
        rw [Finset.sum_comm]
        congr 1
        exact Finset.sum_congr rfl fun j _ => (Finset.mul_sum _ _ _).symm
    _ = X k := by
        have : ∀ j : Fin n, X j * (if j = k then (n : ℂ) else 0)
            = if j = k then X j * n else 0 := fun j => by
          split <;> simp
        simp only [sum_exp_orth, this]
        rw [Finset.sum_ite_eq' Finset.univ k (fun j => X j * n)]
        simp [hnC]

/-! ## The spectrogram transform pair

`get_cplx_spectrogram(x, nframes, lframes)` reshapes `x` (row-major) to an
`nframes × lframes` matrix and applies `np.fft.fft` along each row;
`get_inv_cplx_spectrogram` applies `np.fft.ifft` along each row and
flattens back (row-major). -/

lemma flat_lt {nframes lframes : ℕ} (i : Fin nframes) (j : Fin lframes) :
    (i : ℕ) * lframes + (j : ℕ) < nframes * lframes := by
  calc (i : ℕ) * lframes + (j : ℕ) < (i : ℕ) * lframes + lframes := by omega
    _ = ((i : ℕ) + 1) * lframes := by ring
    _ ≤ nframes * lframes := Nat.mul_le_mul_right _ i.isLt

lemma lframes_pos {nframes lframes : ℕ} (m : Fin (nframes * lframes)) : 0 < lframes := by
  rcases Nat.eq_zero_or_pos lframes with h | h
  · exact absurd m.isLt (by simp [h])
  · exact h

lemma div_lt_nframes {nframes lframes : ℕ} (m : Fin (nframes * lframes)) :
    (m : ℕ) / lframes < nframes :=
  Nat.div_lt_of_lt_mul (lt_of_lt_of_le m.isLt (le_of_eq (Nat.mul_comm _ _)))

/-- Model of `np.reshape(x, (nframes, lframes))` (row-major) followed by
`np.fft.fft(·, axis=1)`. -/
noncomputable def get_cplx_spectrogram (nframes lframes : ℕ)
    (x : Fin (nframes * lframes) → ℂ) : Fin nframes → Fin lframes → ℂ :=
  fun i => np_fft lframes (fun j => x ⟨(i : ℕ) * lframes + (j : ℕ), flat_lt i j⟩)

/-- Model of `np.fft.ifft(zz, axis=1)` followed by `np.reshape(·, (1, nframes*lframes))[0]`
(row-major flatten). -/
noncomputable def get_inv_cplx_spectrogram (nframes lframes : ℕ)
    (zz : Fin nframes → Fin lframes → ℂ) : Fin (nframes * lframes) → ℂ :=
  fun m => np_ifft lframes (zz ⟨(m : ℕ) / lframes, div_lt_nframes m⟩)
    ⟨(m : ℕ) % lframes, Nat.mod_lt _ (lframes_pos m)⟩

/-- C1: the inverse spectrogram transform applied to the forward spectrogram
transform recovers every complex sample sequence of length `nframes*lframes`
exactly (in exact complex arithmetic, hence in particular within `1e-9`
relative tolerance). -/
theorem C1_spectrogram_roundtrip (nframes lframes : ℕ) (x : Fin (nframes * lframes) → ℂ) :
    get_inv_cplx_spectrogram nframes lframes (get_cplx_spectrogram nframes lframes x) = x := by
  funext m
  simp only [get_inv_cplx_spectrogram, get_cplx_spectrogram, np_ifft_np_fft]
  congr 1
  apply Fin.ext
  simp only
  exact Nat.div_add_mod' _ _

/-! ## Shape checking (C6)

`np.reshape(x, (nframes, lframes))` succeeds exactly when the sample count
equals `nframes * lframes`, raising a shape error (`ValueError: cannot
reshape ...`) otherwise.  Modelled on flat lists with `Option` for failure. -/

/-- Model of `np.reshape(x, (nframes, lframes))` on a flat list: row-major chunking,
failing unless `x.length = nframes * lframes`. -/
def np_reshape (x : List ℂ) (nframes lframes : ℕ) : Option (List (List ℂ)) :=
  if x.length = nframes * lframes then
    some ((List.range nframes).map fun i =>
      (List.range lframes).map fun j => x.getD (i * lframes + j) 0)
  else none

/-- Model of `get_cplx_spectrogram` including the shape check performed by
`np.reshape`: reshape, then the per-row forward DFT. -/
noncomputable def get_cplx_spectrogram_checked (x : List ℂ) (nframes lframes : ℕ) :
    Option (List (Fin lframes → ℂ)) :=
  (np_reshape x nframes lframes).map fun rows =>
    rows.map fun r => np_fft lframes fun j => r.getD (j : ℕ) 0

/-- C6: the forward spectrogram transform succeeds exactly when the sample
count equals `nframes * lframes`, and fails (shape error) otherwise. -/
theorem C6_spectrogram_shape (x : List ℂ) (nframes lframes : ℕ) :
    (get_cplx_spectrogram_checked x nframes lframes).isSome
      ↔ x.length = nframes * lframes := by
  simp only [get_cplx_spectrogram_checked, np_reshape]
  split <;> simp_all

/-! ## Phase shifting (C4)

`shift_phase(x, phase)` computes `XX = fft(x)`, adds `phase` to the
unwrapped angle spectrum `np.unwrap(np.angle(XX))`, rebuilds
`YY = |XX| * exp(1j*angle)` and returns `ifft(YY)`. -/

/-- Model of `np.mod(a, b)` (floored modulo on reals). -/
noncomputable def np_mod (a b : ℝ) : ℝ := a - b * ⌊a / b⌋

/-- One element of `np.unwrap`'s phase-correction array (default
`discont = π`, `period = 2π`): from the consecutive difference
`dd = p[j+1] - p[j]`, `ddmod = mod(dd + π, 2π) - π`, forced to `π` when it
equals `-π` with `dd > 0`, and the correction `ddmod - dd`, zeroed when
`|dd| < π`. -/
noncomputable def phase_correct (p : ℕ → ℝ) (j : ℕ) : ℝ :=
  let dd := p (j + 1) - p j
  let ddmod := np_mod (dd + Real.pi) (2 * Real.pi) - Real.pi
  let ddmod2 := if ddmod = -Real.pi ∧ 0 < dd then Real.pi else ddmod
  if |dd| < Real.pi then 0 else ddmod2 - dd

/-- Model of `np.unwrap(p)`: element `i` is `p i` plus the cumulative sum of the
phase corrections before it. -/
noncomputable def np_unwrap (p : ℕ → ℝ) : ℕ → ℝ
  | 0 => p 0
  | i + 1 => p (i + 1) + ∑ j ∈ Finset.range (i + 1), phase_correct p j

/-- Every unwrap correction is an integer multiple of `2π`. -/
lemma phase_correct_int_mul (p : ℕ → ℝ) (j : ℕ) :
    ∃ k : ℤ, phase_correct p j = 2 * Real.pi * k := by
  unfold phase_correct np_mod
  set dd := p (j + 1) - p j with hdd
  by_cases hlt : |dd| < Real.pi
  · exact ⟨0, by simp [hlt]⟩
  · rw [if_neg hlt]
    set K : ℤ := ⌊(dd + Real.pi) / (2 * Real.pi)⌋ with hK
    by_cases hspec : dd + Real.pi - 2 * Real.pi * K - Real.pi = -Real.pi ∧ 0 < dd
    · refine ⟨1 - K, ?_⟩
      rw [if_pos hspec]
      have h1 := hspec.1
      push_cast
      linarith
    · refine ⟨-K, ?_⟩
      rw [if_neg hspec]
      push_cast
      ring

/-- Lemma: `np.unwrap` changes every element by an integer multiple of `2π`. -/
lemma np_unwrap_sub (p : ℕ → ℝ) (i : ℕ) :
    ∃ k : ℤ, np_unwrap p i = p i + 2 * Real.pi * k := by
  cases i with
  | zero => exact ⟨0, by simp [np_unwrap]⟩
  | succ i =>
    have hsum : ∀ n : ℕ, ∃ k : ℤ,
        ∑ j ∈ Finset.range n, phase_correct p j = 2 * Real.pi * k := by
      intro n
      induction n with
      | zero => exact ⟨0, by simp⟩
      | succ n ih =>
        obtain ⟨k1, hk1⟩ := ih
        obtain ⟨k2, hk2⟩ := phase_correct_int_mul p n
        refine ⟨k1 + k2, ?_⟩
        rw [Finset.sum_range_succ, hk1, hk2]
        push_cast
        ring
    obtain ⟨k, hk⟩ := hsum (i + 1)
    exact ⟨k, by rw [np_unwrap, hk]⟩

/-- The angle spectrum `np.angle(XX)` as a `ℕ`-indexed sequence (indices
beyond the array length are never consulted by `np.unwrap` at positions
inside the array). -/
noncomputable def arg_seq (n : ℕ) (XX : Fin n → ℂ) : ℕ → ℝ :=
  fun j => if h : j < n then (XX ⟨j, h⟩).arg else 0

/-- Model of `shift_phase(x, phase)` from `tools.py`:
`XX = np.fft.fft(x)`; `angle = np.unwrap(np.angle(XX)) + phase`;
`YY = np.abs(XX) * np.exp(1j * angle)`; return `np.fft.ifft(YY)`. -/
noncomputable def shift_phase (n : ℕ) (x : Fin n → ℂ) (phase : ℝ) : Fin n → ℂ :=
  np_ifft n fun k => (Complex.abs (np_fft n x k) : ℂ) *
    Complex.exp (Complex.I * ((np_unwrap (arg_seq n (np_fft n x)) (k : ℕ) + phase : ℝ) : ℂ))

/-- The rebuilt spectrum `YY` equals `XX · exp(i·phase)` exactly: unwrapping
changes angles by multiples of `2π` only, and `|XX|·exp(i·arg XX) = XX`. -/
lemma shift_phase_spectrum (n : ℕ) (x : Fin n → ℂ) (phase : ℝ) (k : Fin n) :
    (Complex.abs (np_fft n x k) : ℂ) *
      Complex.exp (Complex.I * ((np_unwrap (arg_seq n (np_fft n x)) (k : ℕ) + phase : ℝ) : ℂ))
      = np_fft n x k * Complex.exp (Complex.I * (phase : ℂ)) := by
  obtain ⟨m, hm⟩ := np_unwrap_sub (arg_seq n (np_fft n x)) (k : ℕ)
  have harg : arg_seq n (np_fft n x) (k : ℕ) = (np_fft n x k).arg := by
    simp [arg_seq, k.isLt]
  have hexp : Complex.I * ((np_unwrap (arg_seq n (np_fft n x)) (k : ℕ) + phase : ℝ) : ℂ)
      = ((np_fft n x k).arg : ℂ) * Complex.I
        + ((m : ℂ) * (2 * (Real.pi : ℂ) * Complex.I) + Complex.I * (phase : ℂ)) := by
    rw [hm, harg]
    push_cast
    ring
  rw [hexp, Complex.exp_add, Complex.exp_add, Complex.exp_int_mul_two_pi_mul_I, one_mul,
    ← mul_assoc, Complex.abs_mul_exp_arg_mul_I]

/-- C4: `shift_phase(x, 0)` equals `x` exactly, and `shift_phase(x, φ)`
preserves the magnitude spectrum `|FFT(x)|` exactly for every phase `φ`. -/
theorem C4_shift_phase (n : ℕ) (x : Fin n → ℂ) (phase : ℝ) :
    shift_phase n x 0 = x ∧
    ∀ k : Fin n, Complex.abs (np_fft n (shift_phase n x phase) k)
      = Complex.abs (np_fft n x k) := by
  constructor
  · have hYY : (fun k : Fin n => (Complex.abs (np_fft n x k) : ℂ) *
        Complex.exp (Complex.I *
          ((np_unwrap (arg_seq n (np_fft n x)) (k : ℕ) + (0 : ℝ) : ℝ) : ℂ)))
        = np_fft n x := by
      funext k
      rw [shift_phase_spectrum n x 0 k]
      simp
    unfold shift_phase
    rw [hYY, np_ifft_np_fft]
  · intro k
    have hYY : (fun k : Fin n => (Complex.abs (np_fft n x k) : ℂ) *
        Complex.exp (Complex.I *
          ((np_unwrap (arg_seq n (np_fft n x)) (k : ℕ) + phase : ℝ) : ℂ)))
        = fun k => np_fft n x k * Complex.exp (Complex.I * (phase : ℂ)) := by
      funext k
      rw [shift_phase_spectrum n x phase k]
    unfold shift_phase
    rw [hYY, np_fft_np_ifft]
    rw [map_mul]
    have : Complex.abs (Complex.exp (Complex.I * (phase : ℂ))) = 1 := by
      rw [mul_comm, Complex.abs_exp_ofReal_mul_I]
    rw [this, mul_one]

/-! ## Synthetic test signals (C5)

`make_test_signal(f, fs, length=1, nharm=0, noise=False)`:
`t = np.arange(0, length, 1/fs)`; `x = ∑_{i in range(nharm+2)} sin(2π·i·f·t)`
(the `noise=False` branch; the noise branch adds random samples and is not
part of the claim). -/

/-- Model of `np.arange(start, stop, step)`: `⌈(stop-start)/step⌉` points
`start + i·step`. -/
noncomputable def np_arange (start stop step : ℝ) : List ℝ :=
  (List.range (⌈(stop - start) / step⌉.toNat)).map fun (i : ℕ) => start + (i : ℝ) * step

/-- Model of `make_test_signal` from `tools.py` (with `noise=False`): returns
`(t, x)`. -/
noncomputable def make_test_signal (f fs length : ℝ) (nharm : ℕ) : List ℝ × List ℝ :=
  (np_arange 0 length (1 / fs),
   (np_arange 0 length (1 / fs)).map fun ti =>
     ∑ i ∈ Finset.range (nharm + 2), Real.sin (2 * Real.pi * (i : ℝ) * f * ti))

/-- Concrete evaluation of `make_test_signal(10, 1000, 1, 0)`: 1000 samples,
`t_i = i/1000`, and each signal sample is the single sinusoid
`sin(2π·10·t_i)` (the `i = 0` term of the harmonic sum is `sin 0 = 0`). -/
lemma make_test_signal_concrete :
    (make_test_signal 10 1000 1 0).1.length = 1000 ∧
    (make_test_signal 10 1000 1 0).2.length = 1000 ∧
    ∀ i : ℕ, i < 1000 →
      (make_test_signal 10 1000 1 0).1[i]? = some ((i : ℝ) * (1 / 1000)) ∧
      (make_test_signal 10 1000 1 0).2[i]?
        = some (Real.sin (2 * Real.pi * 10 * ((i : ℝ) * (1 / 1000)))) := by
  have hceil : ⌈((1 : ℝ) - 0) / (1 / 1000)⌉ = 1000 := by
    rw [show ((1 : ℝ) - 0) / (1 / 1000) = ((1000 : ℕ) : ℝ) by norm_num]
    exact Int.ceil_natCast 1000
  have hcount : ⌈((1 : ℝ) - 0) / (1 / 1000)⌉.toNat = 1000 := by rw [hceil]; rfl
  refine ⟨?_, ?_, ?_⟩
  · simp only [make_test_signal, np_arange, hcount, List.length_map, List.length_range]
  · simp only [make_test_signal, np_arange, hcount, List.length_map, List.length_range]
  · intro i hi
    constructor
    · simp only [make_test_signal, np_arange, hcount, List.getElem?_map, List.getElem?_range,
        hi, if_pos, Option.map_some']
      norm_num
    · simp only [make_test_signal, np_arange, hcount, List.getElem?_map, List.getElem?_range,
        hi, if_pos, Option.map_some', Option.some.injEq]
      rw [Finset.sum_range_succ, Finset.sum_range_one]
      push_cast
      rw [show (2 : ℝ) * Real.pi * 0 * 10 * (0 + (i : ℝ) * (1 / 1000)) = 0 by ring,
        Real.sin_zero, zero_add]
      congr 1
      ring

/-- C5 counterexample: the claim says sample 5 of
`make_test_signal(f=10, fs=1000, length=1, nharm=0)` equals
`sin(2π·10·t) + sin(2π·20·t)` at `t = 5/1000`; the code produces only the
single 10 Hz sinusoid there (its harmonic loop runs over `i = 0, 1`, and the
`i = 0` term is identically zero). -/
theorem C5_make_test_signal_counterexample :
    (make_test_signal 10 1000 1 0).2[5]?
      ≠ some (Real.sin (2 * Real.pi * 10 * (5 / 1000))
              + Real.sin (2 * Real.pi * 20 * (5 / 1000))) := by
  have h5 := ((make_test_signal_concrete.2.2) 5 (by norm_num)).2
  rw [h5]
  intro hcontra
  rw [Option.some.injEq] at hcontra
  rw [show (2 : ℝ) * Real.pi * 10 * ((5 : ℕ) * (1 / 1000))
      = 2 * Real.pi * 10 * (5 / 1000) by push_cast; ring] at hcontra
  have hsin : 0 < Real.sin (2 * Real.pi * 20 * (5 / 1000)) := by
    rw [show (2 : ℝ) * Real.pi * 20 * (5 / 1000) = Real.pi / 5 by ring]
    exact Real.sin_pos_of_pos_of_lt_pi (by positivity) (by linarith [Real.pi_pos])
  linarith

/-- C5 (amended): `make_test_signal(f, fs, length, nharm)` sums the
sinusoids `sin(2π·i·f·t)` for `i = 0, …, nharm+1` — `nharm+2` terms whose
first is identically zero; for `f=10, fs=1000, length=1, nharm=0` it returns
1000 samples spanning one second, with `t_i = i/1000` and each signal sample
equal to the single sinusoid `sin(2π·10·t_i)`. -/
theorem C5_make_test_signal_amended :
    (make_test_signal 10 1000 1 0).1.length = 1000 ∧
    (make_test_signal 10 1000 1 0).2.length = 1000 ∧
    ∀ i : ℕ, i < 1000 →
      (make_test_signal 10 1000 1 0).1[i]? = some ((i : ℝ) * (1 / 1000)) ∧
      (make_test_signal 10 1000 1 0).2[i]?
        = some (Real.sin (2 * Real.pi * 10 * ((i : ℝ) * (1 / 1000)))) :=
  make_test_signal_concrete

/-- Witness for C5: the amended theorem instantiated at sample index 5. -/
theorem C5_make_test_signal_amended_witness :
    (make_test_signal 10 1000 1 0).2[5]?
      = some (Real.sin (2 * Real.pi * 10 * ((5 : ℕ) * (1 / 1000)))) :=
  ((C5_make_test_signal_amended.2.2) 5 (by norm_num)).2

/-! ## The RSA5000 result-CSV reader (C2)

`read_result_csv` is modelled at field level: each file line is the list of
its comma-separated fields, a field being either a non-numeric string or a
numeric value (exact `ℚ` in place of parsed floats).  `float(field)`
succeeds exactly on numeric fields. -/

/-- A comma-separated field: non-numeric text or a numeric value. -/
inductive Tok where
  | str (s : String)
  | num (q : ℚ)
deriving DecidableEq

/-- A file line, already split at commas. -/
abbrev Line := List Tok

/-- Python `float(field)`: the value of a numeric field, failure otherwise. -/
def tokFloat : Tok → Option ℚ
  | .num q => some q
  | .str _ => none

/-- Model of `np.linspace(a, b, n)` (endpoint included, `n=1` gives `[a]`,
`n=0` gives `[]`). -/
def linspace (a b : ℚ) (n : ℕ) : List ℚ :=
  if n = 1 then [a]
  else (List.range n).map fun (i : ℕ) => a + (i : ℚ) * ((b - a) / ((n : ℚ) - 1))

/-- One key test of the metadata scan:
`if key in l and len(l) == 3: value = float(l[1])` — the key may match ANY
field of the line (Python list membership); `none` models a `float`
conversion error. -/
def keyUpdate (key : String) (st : Option ℚ) (l : Line) : Option (Option ℚ) :=
  if Tok.str key ∈ l ∧ l.length = 3 then
    match l[1]? with
    | some t => (tokFloat t).map some
    | none => none
  else some st

/-- One loop iteration of `read_result_csv`'s metadata scan: the
`Frequency`, `XStart` and `XStop` tests applied to one line. -/
def scanLine (st : Option ℚ × Option ℚ × Option ℚ) (l : Line) :
    Option (Option ℚ × Option ℚ × Option ℚ) :=
  match keyUpdate "Frequency" st.1 l with
  | none => none
  | some c =>
    match keyUpdate "XStart" st.2.1 l with
    | none => none
    | some s =>
      match keyUpdate "XStop" st.2.2 l with
      | none => none
      | some e => some (c, s, e)

/-- The full metadata scan over all lines of the file. -/
def scanLines (st : Option ℚ × Option ℚ × Option ℚ) :
    List Line → Option (Option ℚ × Option ℚ × Option ℚ)
  | [] => some st
  | l :: rest =>
    match scanLine st l with
    | none => none
    | some st' => scanLines st' rest

/-- One data row as read by `np.genfromtxt` (single-column numeric body):
exactly one numeric field. -/
def dataValue : Line → Option ℚ
  | [Tok.num q] => some q
  | _ => none

/-- Model of `np.genfromtxt(filename, skip_header=skip)` for a single-column numeric
body: parse every line after the skipped header. -/
def np_genfromtxt : List Line → Option (List ℚ)
  | [] => some []
  | l :: rest =>
    match dataValue l, np_genfromtxt rest with
    | some q, some qs => some (q :: qs)
    | _, _ => none

/-- Model of `read_result_csv` from `tools.py`: data rows after 63 header lines,
metadata scan of the whole file for `Frequency`/`XStart`/`XStop`, frequency
axis `linspace(start-center, stop-center, len(p))`.  `none` models the
exceptions (`float` conversion errors, missing keys, malformed data). -/
def read_result_csv (file : List Line) : Option (List ℚ × List ℚ) :=
  match np_genfromtxt (file.drop 63) with
  | none => none
  | some p =>
    match scanLines (none, none, none) file with
    | some (some center, some start, some stop) =>
        some (linspace (start - center) (stop - center) p.length, p)
    | _ => none

/-- Specification-side per-line extraction (claim wording): take the second
field of a line whose FIRST field is the key and which has exactly 3
fields. -/
def specStep (key : String) (st : Option ℚ) (l : Line) : Option ℚ :=
  if l[0]? = some (Tok.str key) ∧ l.length = 3 then l[1]?.bind tokFloat else st

/-- Specification-side extraction over the whole file: the value of the last
line whose first field is the key (with exactly 3 fields). -/
def specKeyValue (key : String) (st : Option ℚ) : List Line → Option ℚ
  | [] => st
  | l :: rest => specKeyValue key (specStep key st l) rest

/-- Well-formedness of the file with respect to one metadata key: any line
that contains the key among its 3 fields has it as FIRST field and carries a
numeric second field. -/
def keyWellFormed (key : String) (file : List Line) : Prop :=
  ∀ l ∈ file, (Tok.str key ∈ l ∧ l.length = 3) →
    l[0]? = some (Tok.str key) ∧ (l[1]?.bind tokFloat).isSome

instance (key : String) (file : List Line) : Decidable (keyWellFormed key file) := by
  unfold keyWellFormed
  infer_instance

lemma mem_of_getElem?_zero {l : Line} {t : Tok} (h : l[0]? = some t) : t ∈ l := by
  cases l with
  | nil => simp at h
  | cons a rest =>
    simp only [List.getElem?_cons_zero, Option.some.injEq] at h
    simp [h]

/-- Under well-formedness, the code's membership test agrees with the
spec's first-field test, and `keyUpdate` computes `specStep`. -/
lemma keyUpdate_wf (key : String) (st : Option ℚ) (l : Line)
    (h : (Tok.str key ∈ l ∧ l.length = 3) →
      l[0]? = some (Tok.str key) ∧ (l[1]?.bind tokFloat).isSome) :
    keyUpdate key st l = some (specStep key st l) := by
  unfold keyUpdate specStep
  by_cases hm : Tok.str key ∈ l ∧ l.length = 3
  · obtain ⟨h0, h1⟩ := h hm
    rw [if_pos hm, if_pos ⟨h0, hm.2⟩]
    rcases ht1 : l[1]? with _ | t
    · rw [ht1] at h1
      simp at h1
    · rw [ht1] at h1
      rcases t with s | q
      · simp [tokFloat] at h1
      · simp [tokFloat]
  · rw [if_neg hm, if_neg (fun hspec => hm ⟨mem_of_getElem?_zero hspec.1, hspec.2⟩)]

/-- Under well-formedness of all three keys, the code's scan loop computes
the spec-side extraction for each key. -/
lemma scanLines_eq_spec : ∀ (file : List Line),
    keyWellFormed "Frequency" file → keyWellFormed "XStart" file →
    keyWellFormed "XStop" file →
    ∀ st : Option ℚ × Option ℚ × Option ℚ,
      scanLines st file
        = some (specKeyValue "Frequency" st.1 file,
                specKeyValue "XStart" st.2.1 file,
                specKeyValue "XStop" st.2.2 file) := by
  intro file
  induction file with
  | nil => intro _ _ _ st; rfl
  | cons l rest ih =>
    intro h1 h2 h3 st
    have h1l := h1 l (by simp)
    have h2l := h2 l (by simp)
    have h3l := h3 l (by simp)
    have h1r : keyWellFormed "Frequency" rest := fun x hx => h1 x (by simp [hx])
    have h2r : keyWellFormed "XStart" rest := fun x hx => h2 x (by simp [hx])
    have h3r : keyWellFormed "XStop" rest := fun x hx => h3 x (by simp [hx])
    show (match scanLine st l with
          | none => none
          | some st' => scanLines st' rest) = _
    rw [show scanLine st l = some (specStep "Frequency" st.1 l,
          specStep "XStart" st.2.1 l, specStep "XStop" st.2.2 l) by
        unfold scanLine
        rw [keyUpdate_wf _ _ _ h1l, keyUpdate_wf _ _ _ h2l, keyUpdate_wf _ _ _ h3l]]
    exact ih h1r h2r h3r _

/-- The data rows `[q]` for `q ∈ qs` parse back to `qs`. -/
lemma np_genfromtxt_map (qs : List ℚ) :
    np_genfromtxt (qs.map fun q => [Tok.num q]) = some qs := by
  induction qs with
  | nil => rfl
  | cons q rest ih => simp [np_genfromtxt, dataValue, ih]

/-- C2: on a well-formed file — 63 header lines followed by single-column
numeric data rows, metadata keys appearing only as first fields of 3-field
lines with numeric second field — `read_result_csv` skips exactly the 63
header lines to read the data `p`, extracts center/start/stop as the second
fields of the `Frequency`/`XStart`/`XStop` lines, and returns the frequency
axis `linspace(start-center, stop-center, len(p))` (relative to center)
together with `p`. -/
theorem C2_read_result_csv (hdr : List Line) (dataQs : List ℚ)
    (center start stop : ℚ)
    (h63 : hdr.length = 63)
    (hwf1 : keyWellFormed "Frequency" (hdr ++ dataQs.map fun q => [Tok.num q]))
    (hwf2 : keyWellFormed "XStart" (hdr ++ dataQs.map fun q => [Tok.num q]))
    (hwf3 : keyWellFormed "XStop" (hdr ++ dataQs.map fun q => [Tok.num q]))
    (hc : specKeyValue "Frequency" none (hdr ++ dataQs.map fun q => [Tok.num q])
      = some center)
    (hs : specKeyValue "XStart" none (hdr ++ dataQs.map fun q => [Tok.num q])
      = some start)
    (he : specKeyValue "XStop" none (hdr ++ dataQs.map fun q => [Tok.num q])
      = some stop) :
    read_result_csv (hdr ++ dataQs.map fun q => [Tok.num q])
      = some (linspace (start - center) (stop - center) dataQs.length, dataQs) := by
  unfold read_result_csv
  rw [show ((hdr ++ dataQs.map fun q => [Tok.num q]).drop 63)
      = dataQs.map fun q => [Tok.num q] by rw [← h63, List.drop_left]]
  rw [np_genfromtxt_map]
  rw [scanLines_eq_spec _ hwf1 hwf2 hwf3 (none, none, none)]
  simp only [hc, hs, he, List.length_map]

/-- Concrete well-formed result-CSV file for the C2 witness: three metadata
lines and 60 filler lines (63 header lines in all), then two data rows. -/
def c2_test_file : List Line :=
  ([[Tok.str "Frequency", Tok.num 100, Tok.str "Hz"],
    [Tok.str "XStart", Tok.num 90, Tok.str "Hz"],
    [Tok.str "XStop", Tok.num 110, Tok.str "Hz"]]
   ++ List.replicate 60 [Tok.str "meta"])
  ++ [(1 : ℚ), 2].map fun q => [Tok.num q]

/-- Witness for C2: the theorem applied to `c2_test_file` — the axis is
`linspace(90-100, 110-100, 2) = [-10, 10]` and the data is `[1, 2]`. -/
theorem C2_read_result_csv_witness :
    read_result_csv c2_test_file = some ([-10, 10], [1, 2]) := by
  have h := C2_read_result_csv
    ([[Tok.str "Frequency", Tok.num 100, Tok.str "Hz"],
      [Tok.str "XStart", Tok.num 90, Tok.str "Hz"],
      [Tok.str "XStop", Tok.num 110, Tok.str "Hz"]]
     ++ List.replicate 60 [Tok.str "meta"])
    [(1 : ℚ), 2] 100 90 110
    (by decide) (by decide) (by decide) (by decide) (by decide) (by decide) (by decide)
  rw [show c2_test_file
      = ([[Tok.str "Frequency", Tok.num 100, Tok.str "Hz"],
          [Tok.str "XStart", Tok.num 90, Tok.str "Hz"],
          [Tok.str "XStop", Tok.num 110, Tok.str "Hz"]]
         ++ List.replicate 60 [Tok.str "meta"])
        ++ [(1 : ℚ), 2].map fun q => [Tok.num q] from rfl]
  rw [h]
  have hlin : linspace ((90 : ℚ) - 100) (110 - 100) ([(1 : ℚ), 2] : List ℚ).length
      = [-10, 10] := by
    norm_num [linspace, List.range_succ]
  rw [hlin]

/-! ## The Tektronix Specan XML reader (C3, C7)

The parsed XML document is modelled by the lists of (already converted)
texts of the elements of each relevant tag, in document order.  Each
`for elem in root.iter(tag)` loop overwrites its variable, keeping the LAST
element; a missing tag leaves the variable unbound (`NameError`,
modelled as `none`). -/

/-- A parsed Specan XML trace document. -/
structure SpecanXml where
  counts : List ℤ
  xstarts : List ℚ
  xstops : List ℚ
  xunits : List String
  yunits : List String
  ys : List ℚ
deriving DecidableEq

/-- Model of `read_specan_xml` from `tools.py`: last `Count`/`XStart`/`XStop`/
`XUnits`/`YUnits` element of each tag; `p = np.zeros(count)` filled with the
`y` values in document order (an excess of `y` elements raises `IndexError`;
a shortfall leaves trailing zeros); frequency axis
`linspace(start, stop, count)` in absolute frequency. -/
def read_specan_xml (d : SpecanXml) : Option (List ℚ × List ℚ × (String × String)) :=
  match d.counts.getLast?, d.xstarts.getLast?, d.xstops.getLast?,
        d.xunits.getLast?, d.yunits.getLast? with
  | some count, some start, some stop, some xu, some yu =>
    if 0 ≤ count then
      if d.ys.length ≤ count.toNat then
        some (linspace start stop count.toNat,
              d.ys ++ List.replicate (count.toNat - d.ys.length) 0, (xu, yu))
      else none
    else none
  | _, _, _, _, _ => none

/-- C3: on a well-formed document — every tag present, `Count` matching the
number of `y` elements — `read_specan_xml` returns the absolute frequency
axis `linspace(XStart, XStop, Count)` and the `y` values in document
order. -/
theorem C3_read_specan_xml (d : SpecanXml) (count : ℕ) (start stop : ℚ)
    (xu yu : String)
    (hcount : d.counts.getLast? = some (count : ℤ))
    (hstart : d.xstarts.getLast? = some start)
    (hstop : d.xstops.getLast? = some stop)
    (hxu : d.xunits.getLast? = some xu)
    (hyu : d.yunits.getLast? = some yu)
    (hys : d.ys.length = count) :
    read_specan_xml d = some (linspace start stop count, d.ys, (xu, yu)) := by
  simp only [read_specan_xml, hcount, hstart, hstop, hxu, hyu]
  rw [if_pos (by exact_mod_cast Nat.zero_le count)]
  rw [Int.toNat_ofNat]
  rw [if_pos (le_of_eq hys), hys]
  simp

/-- Concrete document for the C3 witness: `Count=5`, `XStart=0`, `XStop=4`,
five `y` elements. -/
def c3_test_doc : SpecanXml :=
  ⟨[5], [0], [4], ["Hz"], ["dBm"], [10, 20, 30, 40, 50]⟩

/-- Witness for C3: the claim's example — axis `[0,1,2,3,4]`, powers in
document order. -/
theorem C3_read_specan_xml_witness :
    read_specan_xml c3_test_doc
      = some ([0, 1, 2, 3, 4], [10, 20, 30, 40, 50], ("Hz", "dBm")) := by
  have h := C3_read_specan_xml c3_test_doc 5 0 4 "Hz" "dBm" rfl rfl rfl rfl rfl rfl
  rw [h]
  have hlin : linspace (0 : ℚ) 4 5 = [0, 1, 2, 3, 4] := by
    norm_num [linspace, List.range_succ]
  rw [hlin]
  rfl

/-- C7: at the claim's failing input — `Count=6` declared but only five `y`
elements — the code does NOT raise any error: it silently zero-pads the
power array to `[y₁,…,y₅,0]` and returns successfully.  (In the opposite
direction, more `y` elements than `Count` raises `IndexError`, not
`ParseError`.) -/
theorem C7_read_specan_xml_count_mismatch :
    read_specan_xml ⟨[6], [0], [5], ["Hz"], ["dBm"], [10, 20, 30, 40, 50]⟩
      = some ([0, 1, 2, 3, 4, 5], [10, 20, 30, 40, 50, 0], ("Hz", "dBm")) := by
  unfold read_specan_xml
  have hlin : linspace (0 : ℚ) 5 6 = [0, 1, 2, 3, 4, 5] := by
    norm_num [linspace, List.range_succ]
  simp [hlin, List.replicate]

/-! ## Engineering notation (C8) -/

/-- The exponent keys of the SI-prefix table `ref` in `get_eng_notation`. -/
def si_keys : List ℤ :=
  [24, 21, 18, 15, 12, 9, 6, 3, 0, -3, -6, -9, -12, -15, -18, -21, -24]

/-- The SI-prefix table `ref` in `get_eng_notation`. -/
def si_prefix (k : ℤ) : String :=
  if k = 24 then "Y" else if k = 21 then "Z" else if k = 18 then "E"
  else if k = 15 then "P" else if k = 12 then "T" else if k = 9 then "G"
  else if k = 6 then "M" else if k = 3 then "k" else if k = 0 then ""
  else if k = -3 then "m" else if k = -6 then "u" else if k = -9 then "n"
  else if k = -12 then "p" else if k = -15 then "f" else if k = -18 then "a"
  else if k = -21 then "z" else "y"

/-- Decimal rendering of the float `m / 10^d` (`m d : ℕ`), as Python's
`'{}'.format(...)` produces for the short decimals arising here: integer
part, a dot, the `d` fractional digits with trailing zeros removed (at
least one digit, so integral values render as `x.0`). -/
def pyFloatRepr (m d : ℕ) : String :=
  let ip := m / 10 ^ d
  let fp := m % 10 ^ d
  let fpStr := toString fp
  let padded := String.mk (List.replicate (d - fpStr.length) '0') ++ fpStr
  let stripped := String.mk (padded.toList.reverse.dropWhile (· = '0')).reverse
  toString ip ++ "." ++ (if stripped.isEmpty then "0" else stripped)

/-- Python `abs(value)` on exact rationals. -/
def qabs (q : ℚ) : ℚ := if q < 0 then -q else q

/-- Model of `get_eng_notation(value, unit, decimal_place)` from `tools.py`, in exact
arithmetic: zero short-circuits to `"0"+unit`; otherwise the largest key
with `|value| ≥ 10^key` selects the prefix (`none` models the `ValueError`
Python's `max` raises on an empty candidate list, i.e. `|value| < 10^-24`),
and the mantissa is `int(|value| / 10^num * 10^d) / 10^d` — truncated, not
rounded. -/
def get_eng_notation (value : ℚ) (unit : String) (decimal_place : ℕ) : Option String :=
  if value = 0 then some ("0" ++ unit)
  else
    (si_keys.filter fun k => (10 : ℚ) ^ k ≤ qabs value).max?.map fun num =>
      (if value < 0 then "-" else "")
        ++ pyFloatRepr (⌊qabs value / (10 : ℚ) ^ num * 10 ^ decimal_place⌋).toNat
             decimal_place
        ++ (if num = 0 then ""
            else if unit ≠ "" then si_prefix num else "e" ++ toString num)
        ++ unit

/-- For values in `[10^3, 10^6)` the selected key is 3 (`kilo`). -/
lemma si_filter_kilo (v : ℚ) (h1 : 1000 ≤ qabs v) (h2 : qabs v < 1000000) :
    (si_keys.filter fun k => (10 : ℚ) ^ k ≤ qabs v).max? = some 3 := by
  rw [show (si_keys.filter fun k => (10 : ℚ) ^ k ≤ qabs v)
      = [3, 0, -3, -6, -9, -12, -15, -18, -21, -24] by
    norm_num [si_keys, List.filter_cons]
    rw [if_neg (not_le.mpr (by linarith)), if_neg (not_le.mpr (by linarith)),
      if_neg (not_le.mpr (by linarith)), if_neg (not_le.mpr (by linarith)),
      if_neg (not_le.mpr (by linarith)), if_neg (not_le.mpr (by linarith)),
      if_neg (not_le.mpr (by linarith)), if_pos h1, if_pos (by linarith),
      if_pos (by linarith), if_pos (by linarith), if_pos (by linarith),
      if_pos (by linarith), if_pos (by linarith), if_pos (by linarith),
      if_pos (by linarith), if_pos (by linarith)]]
  decide

/-- C8: `get_eng_notation` formats with an SI prefix when a unit is given
and an explicit exponent when not, truncating (never rounding) the mantissa:
the claim's examples `1500 → "1.5kHz"` and `0 → "0Hz"`, the truncation
discriminator `1999 → "1.99kHz"` (rounding to two places would give
`"2.0kHz"`), and the unitless form `1500 → "1.5e3"`. -/
theorem C8_get_eng_notation :
    get_eng_notation 1500 "Hz" 2 = some "1.5kHz" ∧
    get_eng_notation 0 "Hz" 2 = some "0Hz" ∧
    get_eng_notation 1999 "Hz" 2 = some "1.99kHz" ∧
    get_eng_notation 1500 "" 2 = some "1.5e3" := by
  have hmant1500 : qabs 1500 / (10 : ℚ) ^ (3 : ℤ) * 10 ^ 2 = ((150 : ℤ) : ℚ) := by
    norm_num [qabs]
  have hfloor1999 : ⌊qabs 1999 / (10 : ℚ) ^ (3 : ℤ) * 10 ^ 2⌋ = 199 := by
    rw [show qabs 1999 / (10 : ℚ) ^ (3 : ℤ) * 10 ^ 2 = (1999 / 10 : ℚ) by norm_num [qabs]]
    rw [Int.floor_eq_iff]
    constructor <;> norm_num
  refine ⟨?_, ?_, ?_, ?_⟩
  · unfold get_eng_notation
    rw [if_neg (by norm_num)]
    rw [si_filter_kilo 1500 (by norm_num [qabs]) (by norm_num [qabs])]
    rw [Option.map_some']
    rw [hmant1500, Int.floor_intCast]
    decide
  · decide
  · unfold get_eng_notation
    rw [if_neg (by norm_num)]
    rw [si_filter_kilo 1999 (by norm_num [qabs]) (by norm_num [qabs])]
    rw [Option.map_some']
    rw [hfloor1999]
    decide
  · unfold get_eng_notation
    rw [if_neg (by norm_num)]
    rw [si_filter_kilo 1500 (by norm_num [qabs]) (by norm_num [qabs])]
    rw [Option.map_some']
    rw [hmant1500, Int.floor_intCast]
    decide

/-! ## Filename parsing (C9)

`parse_filename` splits at `_`, takes fields 0..2, rewrites the unit
suffixes (`MeVu -> e6`, `uA -> e-6`) and converts with Python's `float`.
Strings are processed at character level; `float` is modelled by a decimal
float-literal parser. -/

/-- Python `str.split(sep)` for a single-character separator. -/
def splitOnChar (sep : Char) : List Char → List (List Char)
  | [] => [[]]
  | c :: rest =>
    match splitOnChar sep rest with
    | [] => [[c]]
    | g :: gs => if c = sep then [] :: g :: gs else (c :: g) :: gs

/-- Python `str.replace(old, new)` (leftmost, non-overlapping), with the
list length as recursion fuel (one character is consumed per step, so the
fuel never runs out). -/
def replaceListAux (old new : List Char) : ℕ → List Char → List Char
  | 0, cs => cs
  | _, [] => []
  | fuel + 1, c :: rest =>
    if old.isPrefixOf (c :: rest) ∧ old ≠ [] then
      new ++ replaceListAux old new fuel (rest.drop (old.length - 1))
    else c :: replaceListAux old new fuel rest

/-- Python `s.replace(old, new)`. -/
def pyReplace (s old new : String) : String :=
  String.mk (replaceListAux old.toList new.toList s.toList.length s.toList)

/-- Python `s.split(sep)` for a one-character separator. -/
def pySplit (s : String) (sep : Char) : List String :=
  (splitOnChar sep s.toList).map String.mk

/-- Numeric value of a decimal digit run (most significant first). -/
def digitsVal (ds : List Char) : ℕ := ds.foldl (fun a c => a * 10 + (c.toNat - 48)) 0

/-- The components of a parsed decimal float literal: sign, integer part,
fractional part with its digit count, exponent sign and value. -/
structure FloatLit where
  sgn : Bool
  ip : ℕ
  fp : ℕ
  fplen : ℕ
  esgn : Bool
  ev : ℕ
deriving DecidableEq

/-- The grammar of Python float literals
`[+-] digits [. digits] [(e|E) [+-] digits]` (at least one mantissa digit);
`inf`/`nan` spellings, underscores and surrounding whitespace are not
modelled. -/
def parseFloatLit (s : String) : Option FloatLit :=
  let cs := s.toList
  let sgn := cs.head? == some '-'
  let cs1 := if cs.head? = some '-' ∨ cs.head? = some '+' then cs.tail else cs
  let ipds := cs1.takeWhile Char.isDigit
  let rest1 := cs1.dropWhile Char.isDigit
  let fpds := if rest1.head? = some '.' then rest1.tail.takeWhile Char.isDigit else []
  let rest2 := if rest1.head? = some '.' then rest1.tail.dropWhile Char.isDigit else rest1
  if ipds.isEmpty ∧ fpds.isEmpty then none
  else
    match rest2 with
    | [] => some ⟨sgn, digitsVal ipds, digitsVal fpds, fpds.length, false, 0⟩
    | c :: r =>
      if c = 'e' ∨ c = 'E' then
        let esgn := r.head? == some '-'
        let r2 := if r.head? = some '-' ∨ r.head? = some '+' then r.tail else r
        let eds := r2.takeWhile Char.isDigit
        let rest3 := r2.dropWhile Char.isDigit
        if eds.isEmpty ∨ ¬ rest3.isEmpty then none
        else some ⟨sgn, digitsVal ipds, digitsVal fpds, fpds.length, esgn, digitsVal eds⟩
      else none

/-- The exact rational value of a parsed float literal. -/
def floatLitVal (f : FloatLit) : ℚ :=
  (if f.sgn then -1 else 1) * ((f.ip : ℚ) + (f.fp : ℚ) / 10 ^ f.fplen)
    * 10 ^ (if f.esgn then -(f.ev : ℤ) else (f.ev : ℤ))

/-- Python `float(s)` on decimal literals, in exact arithmetic. -/
def pyFloat (s : String) : Option ℚ := (parseFloatLit s).map floatLitVal

/-- Model of `parse_filename` from `tools.py`: split at `_`;
`descr = parts[0]`, `energy = float(parts[1].replace('MeVu','e6'))`,
`current = float(parts[2].replace('uA','e-6'))`.  `none` models
`IndexError` (fewer than three fields) and `ValueError` (`float` failure). -/
def parse_filename (filename : String) : Option (String × ℚ × ℚ) :=
  match (pySplit filename '_')[0]?, (pySplit filename '_')[1]?,
        (pySplit filename '_')[2]? with
  | some descr, some f1, some f2 =>
    match pyFloat (pyReplace f1 "MeVu" "e6"), pyFloat (pyReplace f2 "uA" "e-6") with
    | some energy, some current => some (descr, energy, current)
    | _, _ => none
  | _, _, _ => none

/-- C9 counterexample: the claim says `parse_filename` fails when the
filename does not meet the pattern's positional/unit conventions, but
`"a_2_3"` — which carries neither a `MeVu` nor a `uA` unit marker — parses
successfully to `("a", 2, 3)`: the unit suffixes are never validated, only
text-replaced when present. -/
theorem C9_parse_filename_counterexample :
    parse_filename "a_2_3" = some ("a", 2, 3) := by
  simp only [parse_filename,
    show (pySplit "a_2_3" '_')[0]? = some "a" from by decide,
    show (pySplit "a_2_3" '_')[1]? = some "2" from by decide,
    show (pySplit "a_2_3" '_')[2]? = some "3" from by decide,
    show pyReplace "2" "MeVu" "e6" = "2" from by decide,
    show pyReplace "3" "uA" "e-6" = "3" from by decide,
    pyFloat,
    show parseFloatLit "2" = some ⟨false, 2, 0, 0, false, 0⟩ from by decide,
    show parseFloatLit "3" = some ⟨false, 3, 0, 0, false, 0⟩ from by decide,
    Option.map_some']
  norm_num [floatLitVal]

/-- C9 (amended): `parse_filename` extracts
`(description, energy in eV, current in A)` from conforming filenames —
`parse_filename("58Ni26+_374MeVu_250uA_pos_0_0.tiq") = ("58Ni26+", 374e6,
250e-6)` — and fails when there are fewer than three `_`-separated fields or
when a transformed field is not numeric; it does NOT fail merely because the
`MeVu`/`uA` unit conventions are absent (see the counterexample). -/
theorem C9_parse_filename_amended :
    parse_filename "58Ni26+_374MeVu_250uA_pos_0_0.tiq"
      = some ("58Ni26+", 374000000, 1 / 4000) ∧
    parse_filename "58Ni26+" = none ∧
    parse_filename "58Ni26+_374MeVu" = none ∧
    parse_filename "a_x_y.tiq" = none := by
  refine ⟨?_, ?_, ?_, ?_⟩
  · simp only [parse_filename,
      show (pySplit "58Ni26+_374MeVu_250uA_pos_0_0.tiq" '_')[0]? = some "58Ni26+" from
        by decide,
      show (pySplit "58Ni26+_374MeVu_250uA_pos_0_0.tiq" '_')[1]? = some "374MeVu" from
        by decide,
      show (pySplit "58Ni26+_374MeVu_250uA_pos_0_0.tiq" '_')[2]? = some "250uA" from
        by decide,
      show pyReplace "374MeVu" "MeVu" "e6" = "374e6" from by decide,
      show pyReplace "250uA" "uA" "e-6" = "250e-6" from by decide,
      pyFloat,
      show parseFloatLit "374e6" = some ⟨false, 374, 0, 0, false, 6⟩ from by decide,
      show parseFloatLit "250e-6" = some ⟨false, 250, 0, 0, true, 6⟩ from by decide,
      Option.map_some']
    norm_num [floatLitVal]
  · simp only [parse_filename,
      show (pySplit "58Ni26+" '_')[0]? = some "58Ni26+" from by decide,
      show (pySplit "58Ni26+" '_')[1]? = none from by decide,
      show (pySplit "58Ni26+" '_')[2]? = none from by decide]
  · simp only [parse_filename,
      show (pySplit "58Ni26+_374MeVu" '_')[0]? = some "58Ni26+" from by decide,
      show (pySplit "58Ni26+_374MeVu" '_')[1]? = some "374MeVu" from by decide,
      show (pySplit "58Ni26+_374MeVu" '_')[2]? = none from by decide]
  · simp only [parse_filename,
      show (pySplit "a_x_y.tiq" '_')[0]? = some "a" from by decide,
      show (pySplit "a_x_y.tiq" '_')[1]? = some "x" from by decide,
      show (pySplit "a_x_y.tiq" '_')[2]? = some "y.tiq" from by decide,
      show pyReplace "x" "MeVu" "e6" = "x" from by decide,
      show pyReplace "y.tiq" "uA" "e-6" = "y.tiq" from by decide,
      pyFloat,
      show parseFloatLit "x" = none from by decide,
      show parseFloatLit "y.tiq" = none from by decide,
      Option.map_none']

/-! ## Extension dispatch (C10) -/

/-- The data-object classes `get_iq_object` can construct (kept abstract here:
their constructors live in other modules of the package). -/
inductive IQKind where
  | csvdata | bindata | wavdata | iqtdata | tiqdata | tdmsdata | tcapdata | xdatdata
deriving DecidableEq

/-- Python `str.rfind(c)`: greatest index of `c`, `-1` if absent. -/
def rfindIdx (cs : List Char) (c : Char) : ℤ :=
  match ((List.range cs.length).filter fun i => cs[i]? = some c).getLast? with
  | some i => (i : ℤ)
  | none => -1

/-- Model of `os.path.splitext(p)[1]` (posix): the suffix from the last dot, provided
a non-dot character precedes it inside the basename (after the last `/`). -/
def splitext_ext (p : String) : String :=
  let cs := p.toList
  let sepIndex := rfindIdx cs '/'
  let dotIndex := rfindIdx cs '.'
  if sepIndex < dotIndex ∧
      (List.range cs.length).any
        (fun i => decide (sepIndex < (i : ℤ)) && decide ((i : ℤ) < dotIndex)
          && !(cs[i]? == some '.'))
  then String.mk (cs.drop dotIndex.toNat)
  else ""

/-- Python `str.lower()` (ASCII case folding suffices for extensions). -/
def pyLower (s : String) : String := String.mk (s.toList.map Char.toLower)

/-- Python truthiness of the optional `header_filename` argument (`None` and
the empty string are falsy). -/
def headerFalsy : Option String → Bool
  | none => true
  | some s => s.isEmpty

/-- The extensions `get_iq_object` recognises. -/
def recognized_exts : List String :=
  [".txt", ".csv", ".bin", ".wav", ".iqt", ".iq", ".tiq", ".tdms", ".dat", ".xdat"]

/-- Model of `get_iq_object` from `tools.py`: dispatch on the lower-cased extension;
`.dat`/`.xdat` additionally require a truthy header filename and abort with
`None` without one; unrecognised extensions leave `iq_data = None`. -/
def get_iq_object (filename : String) (header_filename : Option String) : Option IQKind :=
  if pyLower (splitext_ext filename) = ".txt" ∨ pyLower (splitext_ext filename) = ".csv"
    then some .csvdata
  else if pyLower (splitext_ext filename) = ".bin" then some .bindata
  else if pyLower (splitext_ext filename) = ".wav" then some .wavdata
  else if pyLower (splitext_ext filename) = ".iqt" then some .iqtdata
  else if pyLower (splitext_ext filename) = ".iq" then some .iqtdata
  else if pyLower (splitext_ext filename) = ".tiq" then some .tiqdata
  else if pyLower (splitext_ext filename) = ".tdms" then some .tdmsdata
  else if pyLower (splitext_ext filename) = ".dat" then
    (if headerFalsy header_filename then none else some .tcapdata)
  else if pyLower (splitext_ext filename) = ".xdat" then
    (if headerFalsy header_filename then none else some .xdatdata)
  else none

/-- C10: `get_iq_object` returns `None` (it does not raise) for every
filename whose lower-cased extension is not among the ten recognised ones,
and returns `None` for `.dat`/`.xdat` files when no header filename is
supplied. -/
theorem C10_get_iq_object (filename : String) (header_filename : Option String) :
    (pyLower (splitext_ext filename) ∉ recognized_exts →
      get_iq_object filename header_filename = none) ∧
    ((pyLower (splitext_ext filename) = ".dat" ∨
        pyLower (splitext_ext filename) = ".xdat") →
      get_iq_object filename none = none) := by
  constructor
  · intro h
    simp only [recognized_exts, List.mem_cons, List.not_mem_nil, or_false, not_or] at h
    obtain ⟨h1, h2, h3, h4, h5, h6, h7, h8, h9, h10⟩ := h
    simp only [get_iq_object]
    rw [if_neg (not_or.mpr ⟨h1, h2⟩), if_neg h3, if_neg h4, if_neg h5, if_neg h6,
      if_neg h7, if_neg h8, if_neg h9, if_neg h10]
  · rintro (h | h) <;> simp [get_iq_object, h, headerFalsy]

/-- Witness for C10: an unrecognised extension (`.foo`) and a `.dat` file
without header filename both yield `None`. -/
theorem C10_get_iq_object_witness :
    get_iq_object "data.foo" (some "h") = none ∧
    get_iq_object "data.dat" none = none :=
  ⟨(C10_get_iq_object "data.foo" (some "h")).1 (by decide),
   (C10_get_iq_object "data.dat" none).2 (Or.inl (by decide))⟩

end IqTools
